import Mathlib

/-
Verification of the MACE thread pool (src/mace/utils/thread_pool.cc).

Shallow embedding conventions:
* `size_t` values are modelled as `Nat`.  All verified properties stay far
  below `2 ^ 64`, and every division's dividend is guarded by the same
  emptiness checks the C++ code performs, so unsigned wraparound never
  matters on the verified inputs; the one unsigned-overflow-sensitive
  operation (the 32-bit event word) is modelled with explicit 32-bit
  bitwise arithmetic.
* `int` values (cost_per_item) are modelled as `Int`.
* A C++ division by zero is undefined behaviour; the Compute{1,2,3}D
  embeddings return a dedicated `fault` result exactly when the source
  would divide by zero.
* The concurrent own-work/steal loops of ThreadRun are modelled as a step
  relation on the pool state (one step per successful CAS claim), and
  `std::sort` (which promises only a sorted permutation, not stability)
  is modelled relationally.
-/

namespace MaceThreadPool

/-! ## Constants from thread_pool.cc -/

def kTileCountPerThread : Nat := 2

def kMaxCostUsingSingleThread : Nat := 100

def kThreadPoolNone : Nat := 0

def kThreadPoolInit : Nat := 1

def kThreadPoolRun : Nat := 2

def kThreadPoolShutdown : Nat := 4

def kThreadPoolEventMask : Nat := 0x7fffffff

/-! ## Event word update (ThreadPool::Run, line 188)

The source stores `kThreadPoolRun | ~(event_ | kThreadPoolEventMask)` into a
32-bit atomic.  `~x` on a 32-bit word with value `x < 2 ^ 32` is
`x ^^^ 0xffffffff`. -/

def complement32 (x : Nat) : Nat := x ^^^ 0xffffffff

def runEventUpdate (e : Nat) : Nat :=
  kThreadPoolRun ||| complement32 (e ||| kThreadPoolEventMask)

/-! ## Tile planner arithmetic (Compute1D/2D/3D) -/

/-- Item count of one axis: `1 + (end - start - 1) / step`
(thread_pool.cc lines 309, 348-349, 409-411). -/
def itemsCount (s e st : Nat) : Nat := 1 + (e - s - 1) / st

/-- Modelled from the spec: `RoundUp` comes from mace/utils/math.h, which is
not part of src/; the spec defines the tile count as
`tc_i = ceil(items_i / tile_size_i)`, i.e. ceiling division. -/
def RoundUp (i factor : Nat) : Nat := (i + factor - 1) / factor

/-- `tile_start = start + tile_idx * step_tile_size` where
`step_tile_size = step * tile_size`. -/
def tileStart (s st ts j : Nat) : Nat := s + j * (st * ts)

/-- `tile_end = std::min(end, tile_start + step_tile_size)`. -/
def tileEnd (s e st ts j : Nat) : Nat := min e (tileStart s st ts j + st * ts)

/-- The point `x` is visited by the stepped loop of tile `j` of the axis
`[s, e)` with step `st` and tile size `ts`: the loop starts at the tile start
and advances by `st` while below the tile end. -/
def InTile (s e st ts j x : Nat) : Prop :=
  ∃ m, x = tileStart s st ts j + m * st ∧ x < tileEnd s e st ts j

/-! ## Default tile sizes (Compute2D lines 356-365, Compute3D lines 419-436) -/

def compute2DTileSizes (D items0 items1 ts0 ts1 : Nat) : Nat × Nat :=
  if ts0 = 0 ∨ ts1 = 0 then
    if D ≤ items0 then (items0 / D, items1)
    else (1, max 1 (items1 * items0 / D))
  else (ts0, ts1)

def compute3DTileSizes (D items0 items1 items2 ts0 ts1 ts2 : Nat) :
    Nat × Nat × Nat :=
  if ts0 = 0 ∨ ts1 = 0 ∨ ts2 = 0 then
    if D ≤ items0 then (items0 / D, items1, items2)
    else
      if D ≤ items1 * items0 then (1, items1 * items0 / D, items2)
      else (1, 1, max 1 (items1 * items0 * items2 / D))
  else (ts0, ts1, ts2)

/-! ## Compute1D/2D/3D

Each embedding returns what the source-level call does:
* `empty`   — the early return on an empty range,
* `fault`   — a division by zero in an item count (C++ undefined behaviour),
* `inlineCall` — the single-threaded shortcut invoking the body once with the
  full original arguments,
* `parallel` — dispatch through `Run`, recorded as the list of per-tile
  arguments the body would be invoked with, indexed by `tile_idx`. -/

/-- The arguments one tile contributes for one axis of the body call:
`(tile_start, tile_end, step)`. -/
structure AxisTile where
  tile_start : Nat
  tile_end : Nat
  step : Nat
deriving DecidableEq

inductive Compute1DAction where
  | empty : Compute1DAction
  | fault : Compute1DAction
  | inlineCall (s e st : Nat) : Compute1DAction
  | parallel (tiles : List AxisTile) : Compute1DAction
deriving DecidableEq

inductive Compute2DAction where
  | empty : Compute2DAction
  | fault : Compute2DAction
  | inlineCall (s0 e0 st0 s1 e1 st1 : Nat) : Compute2DAction
  | parallel (tiles : List (AxisTile × AxisTile)) : Compute2DAction
deriving DecidableEq

inductive Compute3DAction where
  | empty : Compute3DAction
  | fault : Compute3DAction
  | inlineCall (s0 e0 st0 s1 e1 st1 s2 e2 st2 : Nat) : Compute3DAction
  | parallel (tiles : List (AxisTile × AxisTile × AxisTile)) :
      Compute3DAction
deriving DecidableEq

/-- ThreadPool::Compute1D (lines 297-327).  `T` is `threads_.size()`, `D` is
`default_tile_count_`. -/
def compute1D (T D s e st ts : Nat) (cost : Int) : Compute1DAction :=
  if e ≤ s then .empty
  else if st = 0 then .fault
  else
    let items := itemsCount s e st
    if T ≤ 1 ∨ (0 ≤ cost ∧ items * cost.toNat < kMaxCostUsingSingleThread) then
      .inlineCall s e st
    else
      let ts1 := if ts = 0 then max 1 (items / D) else ts
      let tc := RoundUp items ts1
      .parallel ((List.range tc).map fun j =>
        ⟨tileStart s st ts1 j, tileEnd s e st ts1 j, st⟩)

/-- ThreadPool::Compute2D (lines 329-381). -/
def compute2D (T D s0 e0 st0 s1 e1 st1 ts0 ts1 : Nat) (cost : Int) :
    Compute2DAction :=
  if e0 ≤ s0 ∨ e1 ≤ s1 then .empty
  else if st0 = 0 ∨ st1 = 0 then .fault
  else
    let items0 := itemsCount s0 e0 st0
    let items1 := itemsCount s1 e1 st1
    if T ≤ 1 ∨
        (0 ≤ cost ∧ items0 * items1 * cost.toNat < kMaxCostUsingSingleThread)
      then .inlineCall s0 e0 st0 s1 e1 st1
    else
      let p := compute2DTileSizes D items0 items1 ts0 ts1
      let tc1 := RoundUp items1 p.2
      .parallel ((List.range (RoundUp items0 p.1 * tc1)).map fun idx =>
        let i0 := idx / tc1
        let i1 := idx - i0 * tc1
        (⟨tileStart s0 st0 p.1 i0, tileEnd s0 e0 st0 p.1 i0, st0⟩,
         ⟨tileStart s1 st1 p.2 i1, tileEnd s1 e1 st1 p.2 i1, st1⟩))

/-- ThreadPool::Compute3D (lines 383-467).  The first guard tests
`start2 >= end1` exactly as the source does on line 405. -/
def compute3D (T D s0 e0 st0 s1 e1 st1 s2 e2 st2 ts0 ts1 ts2 : Nat)
    (cost : Int) : Compute3DAction :=
  if e0 ≤ s0 ∨ e1 ≤ s1 ∨ e1 ≤ s2 then .empty
  else if st0 = 0 ∨ st1 = 0 ∨ st2 = 0 then .fault
  else
    let items0 := itemsCount s0 e0 st0
    let items1 := itemsCount s1 e1 st1
    let items2 := itemsCount s2 e2 st2
    if T ≤ 1 ∨
        (0 ≤ cost ∧
          items0 * items1 * items2 * cost.toNat < kMaxCostUsingSingleThread)
      then .inlineCall s0 e0 st0 s1 e1 st1 s2 e2 st2
    else
      let p := compute3DTileSizes D items0 items1 items2 ts0 ts1 ts2
      let tc2 := RoundUp items2 p.2.2
      let tc12 := RoundUp items1 p.2.1 * tc2
      .parallel ((List.range (RoundUp items0 p.1 * tc12)).map fun idx =>
        let i0 := idx / tc12
        let i12 := idx - i0 * tc12
        let i1 := i12 / tc2
        let i2 := i12 - i1 * tc2
        (⟨tileStart s0 st0 p.1 i0, tileEnd s0 e0 st0 p.1 i0, st0⟩,
         ⟨tileStart s1 st1 p.2.1 i1, tileEnd s1 e1 st1 p.2.1 i1, st1⟩,
         ⟨tileStart s2 st2 p.2.2 i2, tileEnd s2 e2 st2 p.2.2 i2, st2⟩))

/-! ## Run's range partition (ThreadPool::Run lines 166-183)

The loop writes `range_start = iters_offset`,
`range_end = min(iterations, iters_offset + count)` with
`count = iters_per_thread + (i < remainder)`, and advances the offset by
`range_end - range_start`.  `runRangesAux` recurses on the number of
remaining slots (`n = T - i`). -/

def runRangesAux (iterations T : Nat) : Nat → Nat → Nat → List (Nat × Nat)
  | 0, _, _ => []
  | n + 1, i, off =>
    let count := iterations / T + (if i < iterations % T then 1 else 0)
    let re := min iterations (off + count)
    (off, re) :: runRangesAux iterations T n (i + 1) (off + (re - off))

def runRanges (iterations T : Nat) : List (Nat × Nat) :=
  runRangesAux iterations T T 0 0

/-- Closed form of the offset the partition loop reaches before slot `i`. -/
def runOffset (iterations T i : Nat) : Nat :=
  i * (iterations / T) + min i (iterations % T)

/-! ## The worker run loop as a step relation (ThreadRun, lines 263-295)

For the exactly-once property only the three range fields matter; the body
pointer and cpu set of the source ThreadInfo play no role.  Each successful
CAS on `range_len` is one atomic step: the owner loop pairs it with
`func(range_start++)`, a stealer pairs it with the atomic post-decrement
`tail = range_end--` followed by `func(tail - 1)`.  Because `range_start`
is written by the owner only and `range_end` only through atomic
decrements, the index each winner consumes is determined at its claim, so
the claim-granularity steps capture every interleaving of the source. -/

structure ThreadInfo where
  range_start : Nat
  range_end : Nat
  range_len : Nat
deriving DecidableEq

structure PoolState where
  infos : List ThreadInfo
  trace : List Nat
deriving DecidableEq

inductive ThreadRunStep : PoolState → PoolState → Prop
  | own (s : PoolState) (i : Nat) (ti : ThreadInfo)
      (hget : s.infos[i]? = some ti) (hlen : 0 < ti.range_len) :
      ThreadRunStep s
        ⟨s.infos.set i ⟨ti.range_start + 1, ti.range_end, ti.range_len - 1⟩,
         ti.range_start :: s.trace⟩
  | steal (s : PoolState) (i : Nat) (ti : ThreadInfo)
      (hget : s.infos[i]? = some ti) (hlen : 0 < ti.range_len) :
      ThreadRunStep s
        ⟨s.infos.set i ⟨ti.range_start, ti.range_end - 1, ti.range_len - 1⟩,
         (ti.range_end - 1) :: s.trace⟩

/-- The pool state right after Run's set-up loop: the partition written into
the worker records, nothing executed yet. -/
def runInit (iterations T : Nat) : PoolState :=
  ⟨(runRanges iterations T).map (fun p => ⟨p.1, p.2, p.2 - p.1⟩), []⟩

/-- 1 if `k` lies in the worker's current range, else 0. -/
def rangeIndicator (ti : ThreadInfo) (k : Nat) : Nat :=
  if ti.range_start ≤ k ∧ k < ti.range_end then 1 else 0

/-- How many times `k` is accounted for: executions so far plus pending
occurrences in the remaining ranges. -/
def countIn (s : PoolState) (k : Nat) : Nat :=
  s.trace.count k + (s.infos.map (fun ti => rangeIndicator ti k)).sum

/-- Invariant maintained by every ThreadRun step: ranges are well-formed
(`range_len = range_end - range_start`) and each index below `N` is
accounted for exactly once, each index at or above `N` never. -/
def RunInv (N : Nat) (s : PoolState) : Prop :=
  (∀ ti ∈ s.infos,
    ti.range_len = ti.range_end - ti.range_start ∧
    ti.range_start ≤ ti.range_end) ∧
  ∀ k, countIn s k = if k < N then 1 else 0

/-! ## CPU core selection (GetCPUCoresToUse, lines 45-103) and the
constructor (lines 107-147)

Frequencies are `float` in the source and are only ever compared, so they
are embedded as rationals.  `std::sort` guarantees a permutation ordered by
the comparator and nothing about the relative order of tied elements, hence
the sort is modelled relationally: any comparator-sorted permutation is a
possible outcome. -/

inductive CPUAffinityPolicy where
  | AFFINITY_NONE : CPUAffinityPolicy
  | AFFINITY_BIG_ONLY : CPUAffinityPolicy
  | AFFINITY_LITTLE_ONLY : CPUAffinityPolicy
  | AFFINITY_HIGH_PERFORMANCE : CPUAffinityPolicy
  | AFFINITY_POWER_SAVE : CPUAffinityPolicy
deriving DecidableEq

structure CPUFreq where
  core_id : Nat
  freq : ℚ
deriving DecidableEq, Inhabited

/-- The `cpu_freq` vector built on lines 57-61: `{i, cpu_max_freqs[i]}`. -/
def indexedFreqs (freqs : List ℚ) : List CPUFreq :=
  (List.range freqs.length).map (fun i => ⟨i, freqs.getD i 0⟩)

/-- Outcome of the `std::sort` calls on lines 62-76: a permutation that is
pairwise ordered for the policy's comparator (ascending frequency for
POWER_SAVE/LITTLE_ONLY, descending for HIGH_PERFORMANCE/BIG_ONLY); no sort
for AFFINITY_NONE. -/
def sortedByPolicy (policy : CPUAffinityPolicy) (l sorted : List CPUFreq) :
    Prop :=
  match policy with
  | .AFFINITY_POWER_SAVE =>
      sorted.Perm l ∧ sorted.Pairwise (fun a b => a.freq ≤ b.freq)
  | .AFFINITY_LITTLE_ONLY =>
      sorted.Perm l ∧ sorted.Pairwise (fun a b => a.freq ≤ b.freq)
  | .AFFINITY_HIGH_PERFORMANCE =>
      sorted.Perm l ∧ sorted.Pairwise (fun a b => b.freq ≤ a.freq)
  | .AFFINITY_BIG_ONLY =>
      sorted.Perm l ∧ sorted.Pairwise (fun a b => b.freq ≤ a.freq)
  | .AFFINITY_NONE => sorted = l

/-- Lines 52-54: `thread_count` is replaced by the cpu count when it is zero
or exceeds it. -/
def adjustedThreadCount (hint C : Nat) : Nat :=
  if hint = 0 ∨ C < hint then C else hint

/-- Lines 78-90: BIG_ONLY/LITTLE_ONLY count the leading cpus whose frequency
equals the first sorted cpu's frequency; other policies use `thread_count`. -/
def coresCount (policy : CPUAffinityPolicy) (tc : Nat)
    (sorted : List CPUFreq) : Nat :=
  if policy = .AFFINITY_BIG_ONLY ∨ policy = .AFFINITY_LITTLE_ONLY then
    (sorted.takeWhile (fun x => decide (x.freq = sorted.headI.freq))).length
  else tc

/-- GetCPUCoresToUse as a relation between inputs and the produced core id
list (`cores` stays at its initial empty value when the frequency table is
empty or the policy is AFFINITY_NONE). -/
def GetCPUCoresToUseRel (freqs : List ℚ) (policy : CPUAffinityPolicy)
    (hint : Nat) (cores : List Nat) : Prop :=
  if freqs.isEmpty then cores = []
  else if policy = .AFFINITY_NONE then cores = []
  else ∃ sorted, sortedByPolicy policy (indexedFreqs freqs) sorted ∧
    cores = (sorted.take
      (coresCount policy (adjustedThreadCount hint freqs.length) sorted)).map
      CPUFreq.core_id

/-- `cpu_max_freqs[c]` as a total function (all verified uses are in
range). -/
def freqAt (freqs : List ℚ) (c : Nat) : ℚ := freqs.getD c 0

/-- The tie-breaking order the spec claims for equal frequencies: ascending
original cpu id. -/
def TiesAscending (freqs : List ℚ) (cores : List Nat) : Prop :=
  cores.Pairwise (fun a b => freqAt freqs a ≠ freqAt freqs b ∨ a < b)

/-- The configuration the constructor freezes. -/
structure PoolConfig where
  thread_count : Nat
  cores_to_use : List Nat
  default_tile_count : Nat
deriving DecidableEq

/-- Lines 119-140 of the constructor, applied to a given cores list:
clamp `thread_count` to the cores list when that is smaller, then set
`default_tile_count_` to `thread_count`, doubled when at least two cores
were chosen and `cpu_max_freqs[0]` differs from
`cpu_max_freqs[cores_to_use.back()]`. -/
def poolConfigOf (freqs : List ℚ) (cores : List Nat) (tc0 : Nat) :
    PoolConfig :=
  let tc := if ¬ cores.isEmpty ∧ cores.length < tc0 then cores.length else tc0
  ⟨tc, cores,
    if 2 ≤ cores.length ∧
        freqAt freqs 0 ≠ freqAt freqs (cores.getLast?.getD 0) then
      tc * kTileCountPerThread
    else tc⟩

/-- The ThreadPool constructor as a relation from the frequency table,
policy and thread-count hint to the frozen configuration
(`thread_count = max(1, min(hint, cpu_max_freqs.size()))` on lines 119-120,
then GetCPUCoresToUse, then `poolConfigOf`). -/
def PoolCtorRel (freqs : List ℚ) (policy : CPUAffinityPolicy) (hint : Nat)
    (cfg : PoolConfig) : Prop :=
  ∃ cores,
    GetCPUCoresToUseRel freqs policy (max 1 (min hint freqs.length)) cores ∧
    cfg = poolConfigOf freqs cores (max 1 (min hint freqs.length))

/-! # Theorems -/

/-! ## C8 — event word -/

lemma complement32_lor_mask (e : Nat) (he : e < 2 ^ 32) :
    complement32 (e ||| kThreadPoolEventMask) =
      if e.testBit 31 then 0 else 2 ^ 31 := by
  have hmask : kThreadPoolEventMask = 2 ^ 31 - 1 := by norm_num [kThreadPoolEventMask]
  have hones : (0xffffffff : Nat) = 2 ^ 32 - 1 := by norm_num
  apply Nat.eq_of_testBit_eq
  intro i
  rw [complement32, hones, hmask, Nat.testBit_xor, Nat.testBit_lor,
      Nat.testBit_two_pow_sub_one, Nat.testBit_two_pow_sub_one]
  have hrhs : (if e.testBit 31 then 0 else 2 ^ 31).testBit i =
      (! e.testBit 31 && decide (31 = i)) := by
    rcases Bool.eq_false_or_eq_true (e.testBit 31) with h31 | h31 <;>
      rw [h31] <;>
      simp only [if_true, if_false, Bool.false_eq_true, Nat.zero_testBit,
        Nat.testBit_two_pow, Bool.not_false, Bool.not_true, Bool.true_and,
        Bool.false_and, ite_false, ite_true]
  rw [hrhs]
  rcases Nat.lt_trichotomy i 31 with hi | hi | hi
  · rw [decide_eq_true hi, decide_eq_true (show i < 32 by omega),
        decide_eq_false (show ¬ (31 = i) by omega)]
    cases e.testBit i <;> cases e.testBit 31 <;> rfl
  · subst hi
    rw [decide_eq_false (show ¬ (31 : Nat) < 31 by omega),
        decide_eq_true (show (31 : Nat) < 32 by omega),
        decide_eq_true (show (31 : Nat) = 31 from rfl)]
    cases e.testBit 31 <;> rfl
  · have he' : e.testBit i = false :=
      Nat.testBit_lt_two_pow
        (lt_of_lt_of_le he (Nat.pow_le_pow_right (by norm_num) (by omega)))
    rw [he', decide_eq_false (show ¬ i < 31 by omega),
        decide_eq_false (show ¬ i < 32 by omega),
        decide_eq_false (show ¬ (31 = i) by omega)]
    cases e.testBit 31 <;> rfl

lemma runEventUpdate_characterization (e : Nat) (he : e < 2 ^ 32) :
    runEventUpdate e = if e.testBit 31 then 2 else 2 ^ 31 + 2 := by
  rw [runEventUpdate, complement32_lor_mask e he]
  rcases Bool.eq_false_or_eq_true (e.testBit 31) with h | h <;> rw [h] <;>
    decide

/-- C8: for every 32-bit event word `e`, the word published on a RUN
dispatch, `kThreadPoolRun | ~(e | 0x7fffffff)` in 32-bit arithmetic, has
command bits (`value AND 0x7fffffff`) equal to `kThreadPoolRun = 2`, has
its remaining high bit equal to the complement of `e`'s high bit, and
therefore two consecutive RUN dispatches always publish distinct words. -/
theorem runEvent_command_and_generation (e : Nat) (he : e < 2 ^ 32) :
    runEventUpdate e &&& kThreadPoolEventMask = kThreadPoolRun ∧
    (runEventUpdate e).testBit 31 = ! e.testBit 31 ∧
    runEventUpdate (runEventUpdate e) ≠ runEventUpdate e := by
  rcases Bool.eq_false_or_eq_true (e.testBit 31) with h | h <;>
    rw [runEventUpdate_characterization e he, h] <;>
    exact ⟨by decide, by decide, by decide⟩

/-- Witness for C8 at the initial event word `e = 0`. -/
theorem runEvent_command_and_generation_witness :
    (0 : Nat) < 2 ^ 32 ∧
    (runEventUpdate 0 &&& kThreadPoolEventMask = kThreadPoolRun ∧
     (runEventUpdate 0).testBit 31 = ! (0 : Nat).testBit 31 ∧
     runEventUpdate (runEventUpdate 0) ≠ runEventUpdate 0) :=
  ⟨by norm_num, runEvent_command_and_generation 0 (by norm_num)⟩

/-! ## C9 — default tile sizes recompute every axis -/

lemma compute2DTileSizes_zero (D i0 i1 ts0 ts1 : Nat) (h : ts0 = 0 ∨ ts1 = 0) :
    compute2DTileSizes D i0 i1 ts0 ts1 =
      if D ≤ i0 then (i0 / D, i1) else (1, max 1 (i0 * i1 / D)) := by
  rw [compute2DTileSizes, if_pos h, Nat.mul_comm i1 i0]

lemma compute3DTileSizes_zero (D i0 i1 i2 ts0 ts1 ts2 : Nat)
    (h : ts0 = 0 ∨ ts1 = 0 ∨ ts2 = 0) :
    compute3DTileSizes D i0 i1 i2 ts0 ts1 ts2 =
      if D ≤ i0 then (i0 / D, i1, i2)
      else if D ≤ i0 * i1 then (1, i0 * i1 / D, i2)
      else (1, 1, max 1 (i0 * i1 * i2 / D)) := by
  rw [compute3DTileSizes, if_pos h, Nat.mul_comm i1 i0]

/-- C9: in Compute2D (and likewise Compute3D), if at least one caller tile
size is zero then every tile size of the call is recomputed from the default
heuristic — a nonzero tile size passed alongside a zero one is ignored —
and the 2D default is `(items0 / D, items1)` when `items0 ≥ D`, else
`(1, max(1, items0·items1 / D))`. -/
theorem computeTileSizes_default
    (D i0 i1 i2 ts0 ts1 ts2 ts0' ts1' ts2' : Nat) :
    ((ts0 = 0 ∨ ts1 = 0) →
      compute2DTileSizes D i0 i1 ts0 ts1 =
        (if D ≤ i0 then (i0 / D, i1) else (1, max 1 (i0 * i1 / D))) ∧
      ((ts0' = 0 ∨ ts1' = 0) →
        compute2DTileSizes D i0 i1 ts0 ts1 =
          compute2DTileSizes D i0 i1 ts0' ts1')) ∧
    ((ts0 = 0 ∨ ts1 = 0 ∨ ts2 = 0) →
      compute3DTileSizes D i0 i1 i2 ts0 ts1 ts2 =
        (if D ≤ i0 then (i0 / D, i1, i2)
         else if D ≤ i0 * i1 then (1, i0 * i1 / D, i2)
         else (1, 1, max 1 (i0 * i1 * i2 / D))) ∧
      ((ts0' = 0 ∨ ts1' = 0 ∨ ts2' = 0) →
        compute3DTileSizes D i0 i1 i2 ts0 ts1 ts2 =
          compute3DTileSizes D i0 i1 i2 ts0' ts1' ts2')) := by
  constructor
  · intro h
    refine ⟨compute2DTileSizes_zero D i0 i1 ts0 ts1 h, fun h' => ?_⟩
    rw [compute2DTileSizes_zero D i0 i1 ts0 ts1 h,
        compute2DTileSizes_zero D i0 i1 ts0' ts1' h']
  · intro h
    refine ⟨compute3DTileSizes_zero D i0 i1 i2 ts0 ts1 ts2 h, fun h' => ?_⟩
    rw [compute3DTileSizes_zero D i0 i1 i2 ts0 ts1 ts2 h,
        compute3DTileSizes_zero D i0 i1 i2 ts0' ts1' ts2' h']

/-- Witness for C9: the spec's scenario S5 (`items0 = 3, items1 = 100,
D = 8`, automatic tile sizes) yields tile sizes `(1, 37)` even when a
nonzero `tile_size1 = 5` is passed alongside `tile_size0 = 0`, and a 3D
instance with a zero middle size. -/
theorem computeTileSizes_default_witness :
    compute2DTileSizes 8 3 100 0 5 =
      (if 8 ≤ 3 then (3 / 8, 100) else (1, max 1 (3 * 100 / 8))) ∧
    compute2DTileSizes 8 3 100 0 5 = compute2DTileSizes 8 3 100 7 0 ∧
    compute3DTileSizes 4 10 6 7 3 0 9 =
      (if 4 ≤ 10 then (10 / 4, 6, 7)
       else if 4 ≤ 10 * 6 then (1, 10 * 6 / 4, 7)
       else (1, 1, max 1 (10 * 6 * 7 / 4))) :=
  ⟨((computeTileSizes_default 8 3 100 0 0 5 0 0 0 0).1 (Or.inl rfl)).1,
   ((computeTileSizes_default 8 3 100 0 0 5 0 7 0 0).1 (Or.inl rfl)).2
     (Or.inr rfl),
   ((computeTileSizes_default 4 10 6 7 3 0 9 0 0 0).2
     (Or.inr (Or.inl rfl))).1⟩

/-! ## C6 — the third-axis early-return typo -/

/-- C6: evaluating Compute3D at the failing input: all three axes are
non-empty (`start2 = 1 < end2 = 5`), yet because the code's guard compares
`start2` with `end1` (line 405) instead of `end2`, the call returns
immediately without invoking the body. -/
theorem compute3D_guard_typo_eval :
    compute3D 1 1 0 1 1 0 1 1 1 5 1 0 0 0 0 = Compute3DAction.empty ∧
    (1 : Nat) < 5 := by
  decide

/-! ## C4 — single-threaded shortcut -/

lemma compute1D_inline (T D s e st ts : Nat) (cost : Int) (hse : s < e)
    (hst : 1 ≤ st)
    (hsc : T ≤ 1 ∨
      (0 ≤ cost ∧ itemsCount s e st * cost.toNat < kMaxCostUsingSingleThread)) :
    compute1D T D s e st ts cost = .inlineCall s e st := by
  unfold compute1D
  rw [if_neg (by omega), if_neg (by omega), if_pos hsc]

lemma compute2D_inline (T D s0 e0 st0 s1 e1 st1 ts0 ts1 : Nat) (cost : Int)
    (h0 : s0 < e0) (h1 : s1 < e1) (hst0 : 1 ≤ st0) (hst1 : 1 ≤ st1)
    (hsc : T ≤ 1 ∨
      (0 ≤ cost ∧
        itemsCount s0 e0 st0 * itemsCount s1 e1 st1 * cost.toNat <
          kMaxCostUsingSingleThread)) :
    compute2D T D s0 e0 st0 s1 e1 st1 ts0 ts1 cost =
      .inlineCall s0 e0 st0 s1 e1 st1 := by
  unfold compute2D
  rw [if_neg (by omega), if_neg (by omega), if_pos hsc]

lemma compute3D_inline (T D s0 e0 st0 s1 e1 st1 s2 e2 st2 ts0 ts1 ts2 : Nat)
    (cost : Int) (h0 : s0 < e0) (h1 : s1 < e1) (h2 : s2 < e2) (h2' : s2 < e1)
    (hst0 : 1 ≤ st0) (hst1 : 1 ≤ st1) (hst2 : 1 ≤ st2)
    (hsc : T ≤ 1 ∨
      (0 ≤ cost ∧
        itemsCount s0 e0 st0 * itemsCount s1 e1 st1 * itemsCount s2 e2 st2 *
            cost.toNat <
          kMaxCostUsingSingleThread)) :
    compute3D T D s0 e0 st0 s1 e1 st1 s2 e2 st2 ts0 ts1 ts2 cost =
      .inlineCall s0 e0 st0 s1 e1 st1 s2 e2 st2 := by
  unfold compute3D
  rw [if_neg (by omega), if_neg (by omega), if_pos hsc]

lemma compute1D_no_cost_shortcut (T D s e st ts : Nat) (cost : Int)
    (hcost : cost < 0) (hT : 2 ≤ T) (a b c : Nat) :
    compute1D T D s e st ts cost ≠ .inlineCall a b c := by
  unfold compute1D
  by_cases hg : e ≤ s
  · rw [if_pos hg]
    exact fun h => by cases h
  rw [if_neg hg]
  by_cases hz : st = 0
  · rw [if_pos hz]
    exact fun h => by cases h
  rw [if_neg hz,
    if_neg (show ¬ (T ≤ 1 ∨
      (0 ≤ cost ∧ itemsCount s e st * cost.toNat < kMaxCostUsingSingleThread))
      by rintro (h | ⟨h0, _⟩) <;> omega)]
  exact fun h => by cases h

lemma compute2D_no_cost_shortcut (T D s0 e0 st0 s1 e1 st1 ts0 ts1 : Nat)
    (cost : Int) (hcost : cost < 0) (hT : 2 ≤ T) (a b c d f g : Nat) :
    compute2D T D s0 e0 st0 s1 e1 st1 ts0 ts1 cost ≠
      .inlineCall a b c d f g := by
  unfold compute2D
  by_cases hg : e0 ≤ s0 ∨ e1 ≤ s1
  · rw [if_pos hg]
    exact fun h => by cases h
  rw [if_neg hg]
  by_cases hz : st0 = 0 ∨ st1 = 0
  · rw [if_pos hz]
    exact fun h => by cases h
  rw [if_neg hz,
    if_neg (show ¬ (T ≤ 1 ∨
      (0 ≤ cost ∧
        itemsCount s0 e0 st0 * itemsCount s1 e1 st1 * cost.toNat <
          kMaxCostUsingSingleThread))
      by rintro (h | ⟨h0, _⟩) <;> omega)]
  exact fun h => by cases h

lemma compute3D_no_cost_shortcut
    (T D s0 e0 st0 s1 e1 st1 s2 e2 st2 ts0 ts1 ts2 : Nat) (cost : Int)
    (hcost : cost < 0) (hT : 2 ≤ T) (a b c d f g a2 b2 c2 : Nat) :
    compute3D T D s0 e0 st0 s1 e1 st1 s2 e2 st2 ts0 ts1 ts2 cost ≠
      .inlineCall a b c d f g a2 b2 c2 := by
  unfold compute3D
  by_cases hg : e0 ≤ s0 ∨ e1 ≤ s1 ∨ e1 ≤ s2
  · rw [if_pos hg]
    exact fun h => by cases h
  rw [if_neg hg]
  by_cases hz : st0 = 0 ∨ st1 = 0 ∨ st2 = 0
  · rw [if_pos hz]
    exact fun h => by cases h
  rw [if_neg hz,
    if_neg (show ¬ (T ≤ 1 ∨
      (0 ≤ cost ∧
        itemsCount s0 e0 st0 * itemsCount s1 e1 st1 * itemsCount s2 e2 st2 *
            cost.toNat <
          kMaxCostUsingSingleThread))
      by rintro (h | ⟨h0, _⟩) <;> omega)]
  exact fun h => by cases h

/-- C4 counterexample: a Compute3D call with all three axes non-empty
(`0 < 1`, `0 < 1`, `1 < 2`) on a single-threaded pool does NOT invoke the
body inline — the early-return typo (`start2 >= end1`) returns first, so
the claim as stated fails at this input. -/
theorem compute3D_nonempty_not_inline :
    compute3D 1 1 0 1 1 0 1 1 1 2 1 0 0 0 0 = Compute3DAction.empty ∧
    Compute3DAction.empty ≠ Compute3DAction.inlineCall 0 1 1 0 1 1 1 2 1 := by
  decide

/-- C4 (amended): for every Compute1D/2D/3D call with non-empty ranges,
steps ≥ 1 on each axis and — for Compute3D — also `start2 < end1` (the
guard the code actually executes, see C6), when the pool has at most one
thread, or when `cost_per_item ≥ 0` and the product of the per-axis item
counts times `cost_per_item` is below 100, the body is invoked exactly once
inline with the full original `(start, end, step)` arguments for each axis
and the parallel dispatch path is not entered; when `cost_per_item < 0` the
cost-based shortcut does not apply (only `T ≤ 1` can shortcut). -/
theorem compute_shortcut_inline
    (T D s0 e0 st0 s1 e1 st1 s2 e2 st2 ts0 ts1 ts2 : Nat) (cost : Int) :
    (s0 < e0 → 1 ≤ st0 →
      (T ≤ 1 ∨
        (0 ≤ cost ∧
          itemsCount s0 e0 st0 * cost.toNat < kMaxCostUsingSingleThread)) →
      compute1D T D s0 e0 st0 ts0 cost = .inlineCall s0 e0 st0) ∧
    (s0 < e0 → s1 < e1 → 1 ≤ st0 → 1 ≤ st1 →
      (T ≤ 1 ∨
        (0 ≤ cost ∧
          itemsCount s0 e0 st0 * itemsCount s1 e1 st1 * cost.toNat <
            kMaxCostUsingSingleThread)) →
      compute2D T D s0 e0 st0 s1 e1 st1 ts0 ts1 cost =
        .inlineCall s0 e0 st0 s1 e1 st1) ∧
    (s0 < e0 → s1 < e1 → s2 < e2 → s2 < e1 → 1 ≤ st0 → 1 ≤ st1 → 1 ≤ st2 →
      (T ≤ 1 ∨
        (0 ≤ cost ∧
          itemsCount s0 e0 st0 * itemsCount s1 e1 st1 *
              itemsCount s2 e2 st2 * cost.toNat <
            kMaxCostUsingSingleThread)) →
      compute3D T D s0 e0 st0 s1 e1 st1 s2 e2 st2 ts0 ts1 ts2 cost =
        .inlineCall s0 e0 st0 s1 e1 st1 s2 e2 st2) ∧
    (cost < 0 → 2 ≤ T →
      (∀ a b c, compute1D T D s0 e0 st0 ts0 cost ≠ .inlineCall a b c) ∧
      (∀ a b c d f g,
        compute2D T D s0 e0 st0 s1 e1 st1 ts0 ts1 cost ≠
          .inlineCall a b c d f g) ∧
      (∀ a b c d f g a2 b2 c2,
        compute3D T D s0 e0 st0 s1 e1 st1 s2 e2 st2 ts0 ts1 ts2 cost ≠
          .inlineCall a b c d f g a2 b2 c2)) := by
  refine ⟨?_, ?_, ?_, ?_⟩
  · exact fun h hst hsc => compute1D_inline T D s0 e0 st0 ts0 cost h hst hsc
  · exact fun h0 h1 hst0 hst1 hsc =>
      compute2D_inline T D s0 e0 st0 s1 e1 st1 ts0 ts1 cost h0 h1 hst0 hst1 hsc
  · exact fun h0 h1 h2 h2' hst0 hst1 hst2 hsc =>
      compute3D_inline T D s0 e0 st0 s1 e1 st1 s2 e2 st2 ts0 ts1 ts2 cost
        h0 h1 h2 h2' hst0 hst1 hst2 hsc
  · intro hcost hT
    exact ⟨fun a b c =>
        compute1D_no_cost_shortcut T D s0 e0 st0 ts0 cost hcost hT a b c,
      fun a b c d f g =>
        compute2D_no_cost_shortcut T D s0 e0 st0 s1 e1 st1 ts0 ts1 cost
          hcost hT a b c d f g,
      fun a b c d f g a2 b2 c2 =>
        compute3D_no_cost_shortcut T D s0 e0 st0 s1 e1 st1 s2 e2 st2
          ts0 ts1 ts2 cost hcost hT a b c d f g a2 b2 c2⟩

/-- Witness for C4 (amended): a single-threaded pool shortcuts 1D/2D/3D
calls inline with the full arguments, and a negative cost never triggers
the cost shortcut on an 8-thread pool. -/
theorem compute_shortcut_inline_witness :
    compute1D 1 4 0 10 1 0 1 = Compute1DAction.inlineCall 0 10 1 ∧
    compute2D 1 4 0 3 1 0 4 1 0 0 1 = Compute2DAction.inlineCall 0 3 1 0 4 1 ∧
    compute3D 1 4 0 2 1 0 2 1 0 2 1 0 0 0 1 =
      Compute3DAction.inlineCall 0 2 1 0 2 1 0 2 1 ∧
    compute1D 8 4 0 10 1 2 (-1) ≠ Compute1DAction.inlineCall 0 10 1 :=
  ⟨(compute_shortcut_inline 1 4 0 10 1 0 4 1 0 2 1 0 0 0 1).1 (by omega)
      (by omega) (Or.inl (by omega)),
   (compute_shortcut_inline 1 4 0 3 1 0 4 1 0 2 1 0 0 0 1).2.1 (by omega)
      (by omega) (by omega) (by omega) (Or.inl (by omega)),
   (compute_shortcut_inline 1 4 0 2 1 0 2 1 0 2 1 0 0 0 1).2.2.1 (by omega)
      (by omega) (by omega) (by omega) (by omega) (by omega) (by omega)
      (Or.inl (by omega)),
   ((compute_shortcut_inline 8 4 0 10 1 0 4 1 0 2 1 2 0 0 (-1)).2.2.2
      (by omega) (by omega)).1 0 10 1⟩

/-! ## C10 — step = 0 divides by zero -/

/-- C10 counterexample: a Compute2D call whose second axis is non-empty
(`0 < 5`) with `step1 = 0` does not divide by zero — the empty first axis
makes the guard return before any item count is computed — so the claim's
universal statement fails at this input. -/
theorem compute_step_zero_skipped :
    compute2D 4 4 0 0 1 0 5 0 0 0 0 = Compute2DAction.empty ∧
    (0 : Nat) < 5 ∧ Compute2DAction.empty ≠ Compute2DAction.fault := by
  decide

/-- C10 (amended): every Compute1D/2D/3D call that passes its early-return
guard (all guarded axes non-empty; for Compute3D the executed guard is
`start2 < end1`) and has `step = 0` on some axis divides by zero while
computing that axis's item count `1 + (end - start - 1) / step`; with
`step ≥ 1` on every axis no division by zero occurs, so step ≥ 1 is the
unstated precondition for the item computations to be well defined. -/
theorem compute_step_zero_fault
    (T D s0 e0 st0 s1 e1 st1 s2 e2 st2 ts0 ts1 ts2 : Nat) (cost : Int) :
    (s0 < e0 → st0 = 0 → compute1D T D s0 e0 st0 ts0 cost = .fault) ∧
    (1 ≤ st0 → compute1D T D s0 e0 st0 ts0 cost ≠ .fault) ∧
    (s0 < e0 → s1 < e1 → (st0 = 0 ∨ st1 = 0) →
      compute2D T D s0 e0 st0 s1 e1 st1 ts0 ts1 cost = .fault) ∧
    (1 ≤ st0 → 1 ≤ st1 →
      compute2D T D s0 e0 st0 s1 e1 st1 ts0 ts1 cost ≠ .fault) ∧
    (s0 < e0 → s1 < e1 → s2 < e1 → (st0 = 0 ∨ st1 = 0 ∨ st2 = 0) →
      compute3D T D s0 e0 st0 s1 e1 st1 s2 e2 st2 ts0 ts1 ts2 cost =
        .fault) ∧
    (1 ≤ st0 → 1 ≤ st1 → 1 ≤ st2 →
      compute3D T D s0 e0 st0 s1 e1 st1 s2 e2 st2 ts0 ts1 ts2 cost ≠
        .fault) := by
  refine ⟨?_, ?_, ?_, ?_, ?_, ?_⟩
  · intro hse hst
    unfold compute1D
    rw [if_neg (by omega), if_pos hst]
  · intro hst
    unfold compute1D
    by_cases hg : e0 ≤ s0
    · rw [if_pos hg]
      exact fun h => by cases h
    rw [if_neg hg, if_neg (by omega)]
    by_cases hsc : T ≤ 1 ∨
      (0 ≤ cost ∧ itemsCount s0 e0 st0 * cost.toNat < kMaxCostUsingSingleThread)
    · rw [if_pos hsc]
      exact fun h => by cases h
    · rw [if_neg hsc]
      exact fun h => by cases h
  · intro h0 h1 hst
    unfold compute2D
    rw [if_neg (by omega), if_pos hst]
  · intro hst0 hst1
    unfold compute2D
    by_cases hg : e0 ≤ s0 ∨ e1 ≤ s1
    · rw [if_pos hg]
      exact fun h => by cases h
    rw [if_neg hg, if_neg (by omega)]
    by_cases hsc : T ≤ 1 ∨
      (0 ≤ cost ∧
        itemsCount s0 e0 st0 * itemsCount s1 e1 st1 * cost.toNat <
          kMaxCostUsingSingleThread)
    · rw [if_pos hsc]
      exact fun h => by cases h
    · rw [if_neg hsc]
      exact fun h => by cases h
  · intro h0 h1 h2 hst
    unfold compute3D
    rw [if_neg (by omega), if_pos hst]
  · intro hst0 hst1 hst2
    unfold compute3D
    by_cases hg : e0 ≤ s0 ∨ e1 ≤ s1 ∨ e1 ≤ s2
    · rw [if_pos hg]
      exact fun h => by cases h
    rw [if_neg hg, if_neg (by omega)]
    by_cases hsc : T ≤ 1 ∨
      (0 ≤ cost ∧
        itemsCount s0 e0 st0 * itemsCount s1 e1 st1 * itemsCount s2 e2 st2 *
            cost.toNat <
          kMaxCostUsingSingleThread)
    · rw [if_pos hsc]
      exact fun h => by cases h
    · rw [if_neg hsc]
      exact fun h => by cases h

/-- Witness for C10 (amended): `step = 0` on a non-empty 1D range faults,
and a fully stepped 2D call does not. -/
theorem compute_step_zero_fault_witness :
    compute1D 4 4 0 7 0 0 1 = Compute1DAction.fault ∧
    compute2D 4 4 0 7 2 0 9 3 0 0 1 ≠ Compute2DAction.fault :=
  ⟨(compute_step_zero_fault 4 4 0 7 0 0 9 3 0 2 1 0 0 0 1).1 (by omega) rfl,
   (compute_step_zero_fault 4 4 0 7 2 0 9 3 0 2 1 0 0 0 1).2.2.2.1 (by omega)
     (by omega)⟩

/-! ## C5 — tile coverage -/

lemma lt_div_succ_mul (a b : Nat) (hb : 0 < b) : a < (a / b + 1) * b := by
  have hdiv := Nat.div_add_mod a b
  have hmod := Nat.mod_lt a hb
  rw [Nat.add_mul, Nat.one_mul]
  rw [Nat.mul_comm b (a / b)] at hdiv
  linarith

lemma le_roundUp_mul (a b : Nat) (hb : 1 ≤ b) : a ≤ RoundUp a b * b := by
  unfold RoundUp
  have hdiv := Nat.div_add_mod (a + b - 1) b
  have hmod := Nat.mod_lt (a + b - 1) (show 0 < b by omega)
  rw [Nat.mul_comm]
  have : b * ((a + b - 1) / b) = a + b - 1 - (a + b - 1) % b := by omega
  rw [this]
  omega

lemma itemsCount_le_mul (s e st : Nat) (hst : 1 ≤ st) (hse : s < e) :
    e - s ≤ itemsCount s e st * st := by
  unfold itemsCount
  have h := lt_div_succ_mul (e - s - 1) st (by omega)
  rw [Nat.add_mul, Nat.one_mul] at h
  rw [Nat.add_mul, Nat.one_mul]
  omega

lemma itemsCount_spec (s e st k : Nat) (hst : 1 ≤ st) (hse : s < e) :
    k < itemsCount s e st ↔ s + k * st < e := by
  unfold itemsCount
  rw [Nat.add_comm 1, Nat.lt_succ_iff, Nat.le_div_iff_mul_le (by omega)]
  have h : k * st = k * st := rfl
  generalize k * st = x
  omega

lemma inTile_iff (s e st ts j k : Nat) (hst : 1 ≤ st) (hts : 1 ≤ ts)
    (hse : s < e) (hk : k < itemsCount s e st) :
    InTile s e st ts j (s + k * st) ↔ j * ts ≤ k ∧ k < j * ts + ts := by
  unfold InTile tileEnd tileStart
  have hjst : j * (st * ts) = j * ts * st := by ring
  have hcomm : st * ts = ts * st := Nat.mul_comm st ts
  constructor
  · rintro ⟨m, heq, hlt⟩
    have hkm : k * st = (j * ts + m) * st := by
      have h1 : s + k * st = s + (j * ts * st + m * st) := by
        rw [heq, hjst]; ring
      rw [Nat.add_mul]
      omega
    have hk' : k = j * ts + m := Nat.eq_of_mul_eq_mul_right (by omega) hkm
    have hlt2 : s + k * st < s + j * (st * ts) + st * ts :=
      lt_of_lt_of_le hlt (min_le_right _ _)
    have hmts : m < ts := by
      by_contra hcon
      push_neg at hcon
      have h3 : ts * st ≤ m * st := Nat.mul_le_mul_right st hcon
      have h5 : k * st = j * ts * st + m * st := by rw [hk']; ring
      omega
    constructor
    · omega
    · omega
  · rintro ⟨h1, h2⟩
    refine ⟨k - j * ts, ?_, ?_⟩
    · have hm : k = j * ts + (k - j * ts) := by omega
      calc s + k * st = s + (j * ts + (k - j * ts)) * st := by rw [← hm]
      _ = s + j * (st * ts) + (k - j * ts) * st := by ring
    · refine lt_min ((itemsCount_spec s e st k hst hse).mp hk) ?_
      have h5 : k * st = j * ts * st + (k - j * ts) * st := by
        rw [← Nat.add_mul]
        congr 2
        omega
      have h6 : (k - j * ts) * st < ts * st :=
        (Nat.mul_lt_mul_right (show 0 < st by omega)).mpr (by omega)
      omega

lemma axis_cover_unique (s e st ts k : Nat) (hst : 1 ≤ st) (hts : 1 ≤ ts)
    (hse : s < e) (hk : k < itemsCount s e st) :
    ∃! j, j < RoundUp (itemsCount s e st) ts ∧
      InTile s e st ts j (s + k * st) := by
  have htc : k / ts < RoundUp (itemsCount s e st) ts := by
    rw [Nat.div_lt_iff_lt_mul (by omega)]
    exact lt_of_lt_of_le hk (le_roundUp_mul _ _ hts)
  refine ⟨k / ts, ⟨htc, ?_⟩, ?_⟩
  · rw [inTile_iff s e st ts (k / ts) k hst hts hse hk]
    refine ⟨Nat.div_mul_le_self k ts, ?_⟩
    have := lt_div_succ_mul k ts (by omega)
    rw [Nat.add_mul, Nat.one_mul] at this
    omega
  · rintro j' ⟨hj', hin⟩
    rw [inTile_iff s e st ts j' k hst hts hse hk] at hin
    exact (Nat.div_eq_of_lt_le hin.1 (by rw [Nat.add_mul, Nat.one_mul]; omega)).symm

lemma tile_union_axis (s e st ts : Nat) (hst : 1 ≤ st) (hts : 1 ≤ ts)
    (hse : s < e) (x : Nat) :
    (s ≤ x ∧ x < e) ↔
      ∃ j, j < RoundUp (itemsCount s e st) ts ∧
        tileStart s st ts j ≤ x ∧ x < tileEnd s e st ts j := by
  constructor
  · rintro ⟨hsx, hxe⟩
    refine ⟨(x - s) / (st * ts), ?_, ?_, ?_⟩
    · rw [Nat.div_lt_iff_lt_mul (by positivity)]
      have h1 : e - s ≤ itemsCount s e st * st := itemsCount_le_mul s e st hst hse
      have h2 : itemsCount s e st ≤ RoundUp (itemsCount s e st) ts * ts :=
        le_roundUp_mul _ _ hts
      have h3 : itemsCount s e st * st ≤ RoundUp (itemsCount s e st) ts * ts * st :=
        Nat.mul_le_mul_right st h2
      have h4 : RoundUp (itemsCount s e st) ts * ts * st =
          RoundUp (itemsCount s e st) ts * (st * ts) := by ring
      omega
    · unfold tileStart
      have := Nat.div_mul_le_self (x - s) (st * ts)
      omega
    · unfold tileEnd tileStart
      refine lt_min hxe ?_
      have := lt_div_succ_mul (x - s) (st * ts) (by positivity)
      rw [Nat.add_mul, Nat.one_mul] at this
      omega
  · rintro ⟨j, hj, h1, h2⟩
    have h3 : s ≤ tileStart s st ts j := Nat.le_add_right s _
    exact ⟨le_trans h3 h1, lt_of_lt_of_le h2 (min_le_left _ _)⟩

lemma existsUnique_pair (tcA tcB : Nat) (P Q : Nat → Prop)
    (hP : ∃! j, j < tcA ∧ P j) (hQ : ∃! j, j < tcB ∧ Q j) :
    ∃! idx, idx < tcA * tcB ∧ P (idx / tcB) ∧ Q (idx - idx / tcB * tcB) := by
  obtain ⟨jA, ⟨hjA, hPA⟩, hUA⟩ := hP
  obtain ⟨jB, ⟨hjB, hQB⟩, hUB⟩ := hQ
  have htcB : 0 < tcB := by omega
  have hdivAB : (jA * tcB + jB) / tcB = jA :=
    Nat.div_eq_of_lt_le (Nat.le_add_right _ _)
      (by rw [Nat.add_mul, Nat.one_mul]; exact Nat.add_lt_add_left hjB _)
  refine ⟨jA * tcB + jB, ⟨?_, ?_, ?_⟩, ?_⟩
  · calc jA * tcB + jB < jA * tcB + tcB := by omega
    _ = (jA + 1) * tcB := by ring
    _ ≤ tcA * tcB := Nat.mul_le_mul_right tcB (by omega)
  · rw [hdivAB]; exact hPA
  · rw [hdivAB, Nat.add_sub_cancel_left]; exact hQB
  · rintro idx' ⟨hlt, hP', hQ'⟩
    have hq : idx' / tcB < tcA := by
      rw [Nat.div_lt_iff_lt_mul htcB]; exact hlt
    have h1 : idx' / tcB * tcB ≤ idx' := Nat.div_mul_le_self _ _
    have h2 : idx' < idx' / tcB * tcB + tcB := by
      have := lt_div_succ_mul idx' tcB htcB
      rw [Nat.add_mul, Nat.one_mul] at this
      exact this
    have h3 : idx' - idx' / tcB * tcB < tcB := by omega
    have hqA : idx' / tcB = jA := hUA _ ⟨hq, hP'⟩
    have hrB : idx' - idx' / tcB * tcB = jB := hUB _ ⟨h3, hQ'⟩
    rw [hqA] at h1 hrB
    omega

/-- C5: for every Compute1D/2D/3D parallel dispatch with resolved tile sizes
≥ 1 and steps ≥ 1 on non-empty axes, with `tile_count_i` the ceiling of
`items_i / tile_size_i`: as `tile_idx` ranges over `[0, ∏ tile_count_i)`,
the per-axis stepped sub-ranges `[tile_start_i, min(end_i,
tile_start_i + step_i·tile_size_i))` with `tile_start_i = start_i +
idx_i·step_i·tile_size_i` (the code's div/mod decomposition of `tile_idx`)
cover every multi-index of the stepped iteration space exactly once, and on
each axis the union of the tile intervals is exactly `[start, end)`. -/
theorem tile_coverage_exactly_once :
    (∀ s e st ts, 1 ≤ st → 1 ≤ ts → s < e →
      (∀ k, k < itemsCount s e st →
        ∃! j, j < RoundUp (itemsCount s e st) ts ∧
          InTile s e st ts j (s + k * st)) ∧
      (∀ x, (s ≤ x ∧ x < e) ↔
        ∃ j, j < RoundUp (itemsCount s e st) ts ∧
          tileStart s st ts j ≤ x ∧ x < tileEnd s e st ts j)) ∧
    (∀ s0 e0 st0 ts0 s1 e1 st1 ts1,
      1 ≤ st0 → 1 ≤ ts0 → s0 < e0 → 1 ≤ st1 → 1 ≤ ts1 → s1 < e1 →
      ∀ k0 k1, k0 < itemsCount s0 e0 st0 → k1 < itemsCount s1 e1 st1 →
        ∃! idx,
          idx < RoundUp (itemsCount s0 e0 st0) ts0 *
            RoundUp (itemsCount s1 e1 st1) ts1 ∧
          InTile s0 e0 st0 ts0 (idx / RoundUp (itemsCount s1 e1 st1) ts1)
            (s0 + k0 * st0) ∧
          InTile s1 e1 st1 ts1
            (idx - idx / RoundUp (itemsCount s1 e1 st1) ts1 *
              RoundUp (itemsCount s1 e1 st1) ts1)
            (s1 + k1 * st1)) ∧
    (∀ s0 e0 st0 ts0 s1 e1 st1 ts1 s2 e2 st2 ts2,
      1 ≤ st0 → 1 ≤ ts0 → s0 < e0 → 1 ≤ st1 → 1 ≤ ts1 → s1 < e1 →
      1 ≤ st2 → 1 ≤ ts2 → s2 < e2 →
      ∀ k0 k1 k2, k0 < itemsCount s0 e0 st0 → k1 < itemsCount s1 e1 st1 →
        k2 < itemsCount s2 e2 st2 →
        ∃! idx,
          idx < RoundUp (itemsCount s0 e0 st0) ts0 *
            (RoundUp (itemsCount s1 e1 st1) ts1 *
              RoundUp (itemsCount s2 e2 st2) ts2) ∧
          InTile s0 e0 st0 ts0
            (idx / (RoundUp (itemsCount s1 e1 st1) ts1 *
              RoundUp (itemsCount s2 e2 st2) ts2))
            (s0 + k0 * st0) ∧
          InTile s1 e1 st1 ts1
            ((idx - idx / (RoundUp (itemsCount s1 e1 st1) ts1 *
                RoundUp (itemsCount s2 e2 st2) ts2) *
              (RoundUp (itemsCount s1 e1 st1) ts1 *
                RoundUp (itemsCount s2 e2 st2) ts2)) /
              RoundUp (itemsCount s2 e2 st2) ts2)
            (s1 + k1 * st1) ∧
          InTile s2 e2 st2 ts2
            ((idx - idx / (RoundUp (itemsCount s1 e1 st1) ts1 *
                RoundUp (itemsCount s2 e2 st2) ts2) *
              (RoundUp (itemsCount s1 e1 st1) ts1 *
                RoundUp (itemsCount s2 e2 st2) ts2)) -
              (idx - idx / (RoundUp (itemsCount s1 e1 st1) ts1 *
                RoundUp (itemsCount s2 e2 st2) ts2) *
              (RoundUp (itemsCount s1 e1 st1) ts1 *
                RoundUp (itemsCount s2 e2 st2) ts2)) /
              RoundUp (itemsCount s2 e2 st2) ts2 *
              RoundUp (itemsCount s2 e2 st2) ts2)
            (s2 + k2 * st2)) := by
  refine ⟨?_, ?_, ?_⟩
  · intro s e st ts hst hts hse
    exact ⟨fun k hk => axis_cover_unique s e st ts k hst hts hse hk,
      fun x => tile_union_axis s e st ts hst hts hse x⟩
  · intro s0 e0 st0 ts0 s1 e1 st1 ts1 hst0 hts0 hse0 hst1 hts1 hse1 k0 k1 hk0
      hk1
    exact existsUnique_pair _ _ _ _
      (axis_cover_unique s0 e0 st0 ts0 k0 hst0 hts0 hse0 hk0)
      (axis_cover_unique s1 e1 st1 ts1 k1 hst1 hts1 hse1 hk1)
  · intro s0 e0 st0 ts0 s1 e1 st1 ts1 s2 e2 st2 ts2 hst0 hts0 hse0 hst1 hts1
      hse1 hst2 hts2 hse2 k0 k1 k2 hk0 hk1 hk2
    exact existsUnique_pair _ _ _ _
      (axis_cover_unique s0 e0 st0 ts0 k0 hst0 hts0 hse0 hk0)
      (existsUnique_pair _ _ _ _
        (axis_cover_unique s1 e1 st1 ts1 k1 hst1 hts1 hse1 hk1)
        (axis_cover_unique s2 e2 st2 ts2 k2 hst2 hts2 hse2 hk2))

/-- Witness for C5 on a concrete axis `[0, 5)` with step 2 and tile size 2
(2 tiles of 2 items and a final tile of 1). -/
theorem tile_coverage_exactly_once_witness :
    (∀ k, k < itemsCount 0 5 2 →
      ∃! j, j < RoundUp (itemsCount 0 5 2) 2 ∧ InTile 0 5 2 2 j (0 + k * 2)) ∧
    (∀ x, (0 ≤ x ∧ x < 5) ↔
      ∃ j, j < RoundUp (itemsCount 0 5 2) 2 ∧
        tileStart 0 2 2 j ≤ x ∧ x < tileEnd 0 5 2 2 j) :=
  tile_coverage_exactly_once.1 0 5 2 2 (by omega) (by omega) (by omega)

/-! ## C2 — Run's contiguous partition -/

lemma runOffset_zero (N T : Nat) : runOffset N T 0 = 0 := by
  simp [runOffset]

lemma runOffset_last (N T : Nat) (hT : 0 < T) : runOffset N T T = N := by
  unfold runOffset
  have h1 : N % T < T := Nat.mod_lt _ hT
  have h3 := Nat.div_add_mod N T
  have h4 : T * (N / T) = T * (N / T) := rfl
  omega

lemma runOffset_succ (N T i : Nat) :
    runOffset N T (i + 1) =
      runOffset N T i + (N / T + if i < N % T then 1 else 0) := by
  unfold runOffset
  have h : (i + 1) * (N / T) = i * (N / T) + N / T := by ring
  by_cases hir : i < N % T <;> simp only [hir, if_true, if_false] <;> omega

lemma runOffset_mono (N T : Nat) {a b : Nat} (h : a ≤ b) :
    runOffset N T a ≤ runOffset N T b := by
  unfold runOffset
  have h1 : a * (N / T) ≤ b * (N / T) := Nat.mul_le_mul_right _ h
  omega

lemma runRangesAux_eq (N T : Nat) (hT : 0 < T) :
    ∀ n i, i + n = T →
      runRangesAux N T n i (runOffset N T i) =
        (List.range' i n).map
          (fun j => (runOffset N T j, runOffset N T (j + 1))) := by
  intro n
  induction n with
  | zero => intro i h; simp [runRangesAux]
  | succ n ih =>
    intro i h
    have hsucc := runOffset_succ N T i
    have hmono : runOffset N T i ≤ runOffset N T (i + 1) :=
      runOffset_mono N T (Nat.le_succ i)
    have hle : runOffset N T (i + 1) ≤ N := by
      have hm := runOffset_mono N T (show i + 1 ≤ T by omega)
      rw [runOffset_last N T hT] at hm
      exact hm
    have hre : min N
        (runOffset N T i + (N / T + if i < N % T then 1 else 0)) =
        runOffset N T (i + 1) := by
      rw [← hsucc]
      omega
    have harg : runOffset N T i +
        (runOffset N T (i + 1) - runOffset N T i) = runOffset N T (i + 1) := by
      omega
    simp only [runRangesAux]
    rw [hre, harg, List.range'_succ, List.map_cons, ih (i + 1) (by omega)]

lemma runRanges_eq (N T : Nat) (hT : 0 < T) :
    runRanges N T =
      (List.range' 0 T).map
        (fun j => (runOffset N T j, runOffset N T (j + 1))) := by
  have h := runRangesAux_eq N T hT T 0 (by omega)
  rw [runOffset_zero] at h
  unfold runRanges
  exact h

lemma join_ranges_aux (N T : Nat) : ∀ n i,
    (((List.range' i n).map
        (fun j => (runOffset N T j, runOffset N T (j + 1)))).map
      (fun p => List.range' p.1 (p.2 - p.1))).flatten =
      List.range' (runOffset N T i)
        (runOffset N T (i + n) - runOffset N T i) := by
  intro n
  induction n with
  | zero => intro i; simp
  | succ n ih =>
    intro i
    rw [List.range'_succ, List.map_cons, List.map_cons, List.flatten_cons,
      ih (i + 1)]
    dsimp only
    have hm1 : runOffset N T i ≤ runOffset N T (i + 1) :=
      runOffset_mono N T (by omega)
    have hm2 : runOffset N T (i + 1) ≤ runOffset N T (i + 1 + n) :=
      runOffset_mono N T (by omega)
    have hstep : runOffset N T (i + 1) =
        runOffset N T i + 1 * (runOffset N T (i + 1) - runOffset N T i) := by
      omega
    rw [show List.range' (runOffset N T (i + 1))
          (runOffset N T (i + 1 + n) - runOffset N T (i + 1)) =
        List.range'
          (runOffset N T i +
            1 * (runOffset N T (i + 1) - runOffset N T i))
          (runOffset N T (i + 1 + n) - runOffset N T (i + 1)) from by
      rw [← hstep]]
    rw [List.range'_append]
    rw [show i + (n + 1) = i + 1 + n from by omega]
    congr 1
    omega

lemma runRanges_join (N T : Nat) (hT : 0 < T) :
    ((runRanges N T).map (fun p => List.range' p.1 (p.2 - p.1))).flatten =
      List.range N := by
  rw [runRanges_eq N T hT, join_ranges_aux N T T 0, runOffset_zero,
    Nat.zero_add, runOffset_last N T hT, Nat.sub_zero, List.range_eq_range']

/-- C2: for every `Run(body, N)` on a pool with `T ≥ 1` slots, the ranges
written before dispatch form the contiguous partition in which slot `i`
owns `[o_i, o_{i+1})` with `o_i = i·(N/T) + min i (N mod T)` (equivalently
`o_0 = 0` and `o_{i+1} = o_i + N/T + (i < N mod T)`), the ranges are
disjoint, consecutive and their union in order is exactly `[0, N)`
(their flattening is `List.range N`), and for `T = 4`, `N = 10` the
partition is `[0,3),[3,6),[6,8),[8,10)`. -/
theorem run_partition (iterations T : Nat) (hT : 1 ≤ T) :
    (runRanges iterations T).length = T ∧
    (∀ i, i < T → (runRanges iterations T)[i]? =
      some (runOffset iterations T i, runOffset iterations T (i + 1))) ∧
    runOffset iterations T 0 = 0 ∧
    runOffset iterations T T = iterations ∧
    (∀ i, runOffset iterations T (i + 1) =
      runOffset iterations T i +
        (iterations / T + if i < iterations % T then 1 else 0)) ∧
    ((runRanges iterations T).map
        (fun p => List.range' p.1 (p.2 - p.1))).flatten =
      List.range iterations ∧
    runRanges 10 4 = [(0, 3), (3, 6), (6, 8), (8, 10)] := by
  refine ⟨?_, ?_, runOffset_zero _ _, runOffset_last _ _ (by omega),
    runOffset_succ _ _, runRanges_join _ _ (by omega), by decide⟩
  · rw [runRanges_eq _ _ (by omega), List.length_map, List.length_range']
  · intro i hi
    simp [runRanges_eq _ _ (show 0 < T by omega), List.getElem?_range', hi]

/-- Witness for C2 at the spec's scenario S2 (`T = 4`, `N = 10`). -/
theorem run_partition_witness :
    (runRanges 10 4).length = 4 ∧
    runRanges 10 4 = [(0, 3), (3, 6), (6, 8), (8, 10)] :=
  ⟨(run_partition 10 4 (by omega)).1,
   (run_partition 10 4 (by omega)).2.2.2.2.2.2⟩

/-! ## C1 — exactly-once execution -/

lemma count_range' (a n k : Nat) :
    (List.range' a n).count k = if a ≤ k ∧ k < a + n then 1 else 0 := by
  split
  · exact List.count_eq_one_of_mem (List.nodup_range' a n 1 (by omega))
      (by rw [List.mem_range'_1]; omega)
  · rw [List.count_eq_zero, List.mem_range'_1]
    omega

lemma sum_map_set {α : Type} (f : α → Nat) :
    ∀ (l : List α) (i : Nat) (a x : α), l[i]? = some a →
      ((l.set i x).map f).sum + f a = (l.map f).sum + f x := by
  intro l
  induction l with
  | nil => intro i a x h; simp at h
  | cons b t ih =>
    intro i a x h
    cases i with
    | zero =>
      rw [List.getElem?_cons_zero, Option.some_inj] at h
      subst h
      rw [List.set_cons_zero, List.map_cons, List.map_cons, List.sum_cons,
        List.sum_cons]
      omega
    | succ n =>
      rw [List.getElem?_cons_succ] at h
      rw [List.set_cons_succ, List.map_cons, List.map_cons, List.sum_cons,
        List.sum_cons]
      have := ih n a x h
      omega

lemma indicator_split_own (ti : ThreadInfo) (k : Nat)
    (hwf : ti.range_len = ti.range_end - ti.range_start ∧
      ti.range_start ≤ ti.range_end)
    (hlen : 0 < ti.range_len) :
    (if ti.range_start = k then 1 else 0) +
      rangeIndicator ⟨ti.range_start + 1, ti.range_end, ti.range_len - 1⟩ k =
      rangeIndicator ti k := by
  unfold rangeIndicator
  dsimp only
  split <;> split <;> split <;> omega

lemma indicator_split_steal (ti : ThreadInfo) (k : Nat)
    (hwf : ti.range_len = ti.range_end - ti.range_start ∧
      ti.range_start ≤ ti.range_end)
    (hlen : 0 < ti.range_len) :
    (if ti.range_end - 1 = k then 1 else 0) +
      rangeIndicator ⟨ti.range_start, ti.range_end - 1, ti.range_len - 1⟩ k =
      rangeIndicator ti k := by
  unfold rangeIndicator
  dsimp only
  split <;> split <;> split <;> omega

lemma runInv_init (N T : Nat) (hT : 0 < T) : RunInv N (runInit N T) := by
  constructor
  · intro ti hti
    unfold runInit at hti
    dsimp only at hti
    rw [List.mem_map] at hti
    obtain ⟨p, hp, rfl⟩ := hti
    refine ⟨rfl, ?_⟩
    rw [runRanges_eq N T hT, List.mem_map] at hp
    obtain ⟨j, _, rfl⟩ := hp
    exact runOffset_mono N T (by omega)
  · intro k
    unfold countIn runInit
    dsimp only
    rw [List.map_map]
    have hflat := congrArg (List.count k) (runRanges_join N T hT)
    rw [List.count_flatten, List.map_map] at hflat
    have hpt : (runRanges N T).map
        (List.count k ∘ fun p => List.range' p.1 (p.2 - p.1)) =
        (runRanges N T).map
          ((fun ti => rangeIndicator ti k) ∘
            fun p => (⟨p.1, p.2, p.2 - p.1⟩ : ThreadInfo)) := by
      apply List.map_congr_left
      intro p hp
      have hple : p.1 ≤ p.2 := by
        rw [runRanges_eq N T hT, List.mem_map] at hp
        obtain ⟨j, _, rfl⟩ := hp
        exact runOffset_mono N T (by omega)
      show (List.range' p.1 (p.2 - p.1)).count k = rangeIndicator _ k
      rw [count_range']
      unfold rangeIndicator
      dsimp only
      exact if_congr (by omega) rfl rfl
    rw [hpt] at hflat
    rw [hflat]
    rw [List.range_eq_range', count_range']
    simp only [List.count_nil, Nat.zero_add]
    exact if_congr (by omega) rfl rfl

lemma runInv_step (N : Nat) {s s' : PoolState} (hstep : ThreadRunStep s s')
    (hinv : RunInv N s) : RunInv N s' := by
  obtain ⟨hwf, hcnt⟩ := hinv
  cases hstep with
  | own i ti hget hlen =>
    have hti : ti ∈ s.infos := by
      rw [List.getElem?_eq_some_iff] at hget
      obtain ⟨hlt, heq⟩ := hget
      rw [← heq]
      exact List.getElem_mem hlt
    have hwfi := hwf ti hti
    constructor
    · intro tj htj
      rcases List.mem_or_eq_of_mem_set htj with h | h
      · exact hwf tj h
      · subst h
        dsimp only
        omega
    · intro k
      have hsum := sum_map_set (fun tj => rangeIndicator tj k) s.infos i ti
        ⟨ti.range_start + 1, ti.range_end, ti.range_len - 1⟩ hget
      dsimp only at hsum
      have hind := indicator_split_own ti k hwfi hlen
      have hc := hcnt k
      unfold countIn at hc ⊢
      dsimp only
      rw [List.count_cons]
      simp only [beq_iff_eq]
      omega
  | steal i ti hget hlen =>
    have hti : ti ∈ s.infos := by
      rw [List.getElem?_eq_some_iff] at hget
      obtain ⟨hlt, heq⟩ := hget
      rw [← heq]
      exact List.getElem_mem hlt
    have hwfi := hwf ti hti
    constructor
    · intro tj htj
      rcases List.mem_or_eq_of_mem_set htj with h | h
      · exact hwf tj h
      · subst h
        dsimp only
        omega
    · intro k
      have hsum := sum_map_set (fun tj => rangeIndicator tj k) s.infos i ti
        ⟨ti.range_start, ti.range_end - 1, ti.range_len - 1⟩ hget
      dsimp only at hsum
      have hind := indicator_split_steal ti k hwfi hlen
      have hc := hcnt k
      unfold countIn at hc ⊢
      dsimp only
      rw [List.count_cons]
      simp only [beq_iff_eq]
      omega

lemma runInv_steps (N : Nat) {s s' : PoolState}
    (h : Relation.ReflTransGen ThreadRunStep s s') (hinv : RunInv N s) :
    RunInv N s' := by
  induction h with
  | refl => exact hinv
  | tail _ hstep ih => exact runInv_step N hstep ih

/-- C1: for every `Run(body, N)` on a pool with `T ≥ 1` worker slots,
starting from the partition Run writes (`runInit`), after any interleaving
of own-range claims and steals (`ThreadRunStep`) that drains every
`range_len` to zero, each index in `[0, N)` has been passed to the body
exactly once and no index outside `[0, N)` was ever executed: no index is
executed twice and none is skipped. -/
theorem run_exactly_once (iterations T : Nat) (hT : 1 ≤ T) (s : PoolState)
    (hsteps : Relation.ReflTransGen ThreadRunStep (runInit iterations T) s)
    (hdone : ∀ ti ∈ s.infos, ti.range_len = 0) :
    (∀ k, k < iterations → s.trace.count k = 1) ∧
    (∀ k, iterations ≤ k → s.trace.count k = 0) := by
  obtain ⟨hwf, hcnt⟩ :=
    runInv_steps iterations hsteps (runInv_init iterations T (by omega))
  have hzero : ∀ k, ((s.infos.map (fun ti => rangeIndicator ti k)).sum = 0) := by
    intro k
    apply List.sum_eq_zero
    intro x hx
    rw [List.mem_map] at hx
    obtain ⟨ti, hti, rfl⟩ := hx
    have h1 := hwf ti hti
    have h2 := hdone ti hti
    unfold rangeIndicator
    rw [if_neg (by omega)]
  constructor
  · intro k hk
    have hc := hcnt k
    unfold countIn at hc
    rw [hzero k, if_pos hk] at hc
    omega
  · intro k hk
    have hc := hcnt k
    unfold countIn at hc
    rw [hzero k, if_neg (by omega)] at hc
    omega

/-- Witness for C1: a one-slot pool running one iteration; the single own
claim executes index 0, after which the range is drained and the trace
contains index 0 exactly once. -/
theorem run_exactly_once_witness :
    (∀ ti ∈ (⟨[⟨1, 1, 0⟩], [0]⟩ : PoolState).infos, ti.range_len = 0) ∧
    (∀ k, k < 1 → (⟨[⟨1, 1, 0⟩], [0]⟩ : PoolState).trace.count k = 1) := by
  refine ⟨by decide, ?_⟩
  have hstep : ThreadRunStep (runInit 1 1) ⟨[⟨1, 1, 0⟩], [0]⟩ :=
    ThreadRunStep.own (runInit 1 1) 0 ⟨0, 1, 1⟩ (by decide) (by decide)
  exact (run_exactly_once 1 1 (by omega) ⟨[⟨1, 1, 0⟩], [0]⟩
    (Relation.ReflTransGen.single hstep) (by decide)).1

/-! ## C3, C7 — CPU core selection and default tile count -/

lemma getD_eq_getElem (l : List ℚ) (i : Nat) (h : i < l.length) :
    l.getD i 0 = l[i] := by
  rw [List.getD_eq_get?, List.get?_eq_getElem?, List.getElem?_eq_getElem h]
  rfl

lemma getD_mem (l : List ℚ) (i : Nat) (h : i < l.length) : l.getD i 0 ∈ l := by
  rw [getD_eq_getElem l i h]
  exact List.getElem_mem h

lemma mem_indexedFreqs (freqs : List ℚ) {p : CPUFreq}
    (hp : p ∈ indexedFreqs freqs) :
    p.core_id < freqs.length ∧ p.freq = freqs.getD p.core_id 0 := by
  unfold indexedFreqs at hp
  rw [List.mem_map] at hp
  obtain ⟨i, hi, rfl⟩ := hp
  rw [List.mem_range] at hi
  exact ⟨hi, rfl⟩

lemma freqAt_of_mem_indexed (freqs : List ℚ) {p : CPUFreq}
    (hp : p ∈ indexedFreqs freqs) : freqAt freqs p.core_id = p.freq := by
  unfold freqAt
  exact (mem_indexedFreqs freqs hp).2.symm

lemma exists_indexed_of_mem (freqs : List ℚ) {f : ℚ} (hf : f ∈ freqs) :
    ∃ p ∈ indexedFreqs freqs, p.freq = f := by
  rw [List.mem_iff_getElem] at hf
  obtain ⟨i, hi, heq⟩ := hf
  refine ⟨⟨i, freqs.getD i 0⟩, ?_, ?_⟩
  · unfold indexedFreqs
    rw [List.mem_map]
    exact ⟨i, List.mem_range.mpr hi, rfl⟩
  · dsimp only
    rw [getD_eq_getElem freqs i hi]
    exact heq

lemma indexedFreqs_map_freq (freqs : List ℚ) :
    (indexedFreqs freqs).map CPUFreq.freq = freqs := by
  unfold indexedFreqs
  rw [List.map_map]
  apply List.ext_getElem
  · rw [List.length_map, List.length_range]
  · intro n h1 h2
    rw [List.getElem_map, List.getElem_range]
    exact getD_eq_getElem freqs n h2

lemma sortedByPolicy_perm {policy : CPUAffinityPolicy}
    {l sorted : List CPUFreq} (hpol : policy ≠ .AFFINITY_NONE)
    (h : sortedByPolicy policy l sorted) : sorted.Perm l := by
  cases policy with
  | AFFINITY_NONE => exact absurd rfl hpol
  | AFFINITY_BIG_ONLY => exact h.1
  | AFFINITY_LITTLE_ONLY => exact h.1
  | AFFINITY_HIGH_PERFORMANCE => exact h.1
  | AFFINITY_POWER_SAVE => exact h.1

lemma sorted_ne_nil {freqs : List ℚ} {sorted : List CPUFreq}
    (hperm : sorted.Perm (indexedFreqs freqs)) (hne : freqs ≠ []) :
    sorted ≠ [] := by
  intro hcon
  subst hcon
  have h1 := hperm.length_eq
  unfold indexedFreqs at h1
  rw [List.length_map, List.length_range, List.length_nil] at h1
  exact hne (List.length_eq_zero.mp h1.symm)

lemma pairwise_head_bound {r : ℚ → ℚ → Prop} (href : ∀ a, r a a)
    {h0 : CPUFreq} {t : List CPUFreq}
    (hp : (h0 :: t).Pairwise (fun a b => r b.freq a.freq)) :
    ∀ x ∈ h0 :: t, r x.freq h0.freq := by
  intro x hx
  rcases List.mem_cons.mp hx with rfl | hxt
  · exact href x.freq
  · exact (List.pairwise_cons.mp hp).1 x hxt

lemma dropWhile_freq_ne {r : ℚ → ℚ → Prop}
    (han : ∀ {a b : ℚ}, r a b → r b a → a = b) (f0 : ℚ) :
    ∀ (l : List CPUFreq), l.Pairwise (fun a b => r b.freq a.freq) →
      (∀ x ∈ l, r x.freq f0) →
      ∀ x ∈ l.dropWhile (fun y => decide (y.freq = f0)), x.freq ≠ f0 := by
  intro l
  induction l with
  | nil => intro _ _ x hx; simp at hx
  | cons a t ih =>
    intro hp hb x hx
    rw [List.dropWhile_cons] at hx
    by_cases ha : a.freq = f0
    · rw [if_pos (by simp [ha])] at hx
      exact ih (List.pairwise_cons.mp hp).2
        (fun y hy => hb y (List.mem_cons_of_mem a hy)) x hx
    · rw [if_neg (by simp [ha])] at hx
      rcases List.mem_cons.mp hx with rfl | hxt
      · exact ha
      · intro hxf
        have h1 : r x.freq a.freq := (List.pairwise_cons.mp hp).1 x hxt
        have h2 : r a.freq f0 := hb a (List.mem_cons_self a t)
        rw [hxf] at h1
        exact ha (han h2 h1)

lemma take_length_takeWhile {α : Type} (p : α → Bool) (l : List α) :
    l.take (l.takeWhile p).length = l.takeWhile p := by
  induction l with
  | nil => simp
  | cons a t ih =>
    by_cases h : p a
    · simp [List.takeWhile_cons, h, ih]
    · simp [List.takeWhile_cons, h]

lemma countP_sorted_eq_takeWhile {r : ℚ → ℚ → Prop}
    (han : ∀ {a b : ℚ}, r a b → r b a → a = b)
    (h0 : CPUFreq) (t : List CPUFreq)
    (hp : (h0 :: t).Pairwise (fun a b => r b.freq a.freq))
    (hb : ∀ x ∈ h0 :: t, r x.freq h0.freq) :
    (h0 :: t).countP (fun x => decide (x.freq = h0.freq)) =
      ((h0 :: t).takeWhile (fun x => decide (x.freq = h0.freq))).length := by
  conv_lhs => rw [← List.takeWhile_append_dropWhile
    (fun x => decide (x.freq = h0.freq)) (h0 :: t)]
  rw [List.countP_append]
  have h1 : ((h0 :: t).takeWhile
        (fun x => decide (x.freq = h0.freq))).countP
      (fun x => decide (x.freq = h0.freq)) =
      ((h0 :: t).takeWhile (fun x => decide (x.freq = h0.freq))).length := by
    rw [List.countP_eq_length]
    intro a ha
    exact List.mem_takeWhile_imp
      (p := fun x : CPUFreq => decide (x.freq = h0.freq)) ha
  have h2 : ((h0 :: t).dropWhile
        (fun x => decide (x.freq = h0.freq))).countP
      (fun x => decide (x.freq = h0.freq)) = 0 := by
    rw [List.countP_eq_zero]
    intro a ha
    have := dropWhile_freq_ne han h0.freq (h0 :: t) hp hb a ha
    simp [this]
  omega

lemma cores_valid (freqs : List ℚ) (policy : CPUAffinityPolicy) (hint : Nat)
    (cores : List Nat) (h : GetCPUCoresToUseRel freqs policy hint cores) :
    ∀ c ∈ cores, c < freqs.length := by
  unfold GetCPUCoresToUseRel at h
  by_cases h1 : freqs.isEmpty = true
  · rw [if_pos h1] at h
    subst h
    intro c hc
    simp at hc
  rw [if_neg h1] at h
  by_cases h2 : policy = .AFFINITY_NONE
  · rw [if_pos h2] at h
    subst h
    intro c hc
    simp at hc
  rw [if_neg h2] at h
  obtain ⟨sorted, hsort, rfl⟩ := h
  intro c hc
  rw [List.mem_map] at hc
  obtain ⟨p, hp, rfl⟩ := hc
  have hp2 : p ∈ sorted := List.mem_of_mem_take hp
  have hp3 : p ∈ indexedFreqs freqs :=
    ((sortedByPolicy_perm h2 hsort).mem_iff).mp hp2
  exact (mem_indexedFreqs freqs hp3).1

/-- C7 counterexample: with two cpus of equal frequency, `std::sort` only
promises a comparator-sorted permutation, so `[1, 0]` is a possible
GetCPUCoresToUse outcome for HIGH_PERFORMANCE — and its equal-frequency
cpu ids are not in ascending order, refuting the stable-sort tie-breaking
claim. -/
theorem cores_ties_counterexample :
    GetCPUCoresToUseRel [1, 1] .AFFINITY_HIGH_PERFORMANCE 2 [1, 0] ∧
    ¬ TiesAscending [1, 1] [1, 0] := by
  constructor
  · unfold GetCPUCoresToUseRel
    rw [if_neg (by decide), if_neg (by decide)]
    exact ⟨[⟨1, 1⟩, ⟨0, 1⟩], ⟨by decide, by decide⟩, by decide⟩
  · intro hta
    unfold TiesAscending at hta
    have h := (List.pairwise_cons.mp hta).1 0 (List.mem_cons_self 0 [])
    rcases h with h | h
    · exact h (by decide)
    · omega

/-- C7 (amended): for every non-empty frequency table and policy other than
none, every possible chosen cpu id list is ordered by frequency —
descending for BIG_ONLY and HIGH_PERFORMANCE, ascending for LITTLE_ONLY and
POWER_SAVE; BIG_ONLY chooses exactly the cpus sharing the maximum frequency
and LITTLE_ONLY exactly those sharing the minimum; the relative order of
equal-frequency cpus is not specified (std::sort is not stable). -/
theorem cores_ordered_by_policy (freqs : List ℚ) (policy : CPUAffinityPolicy)
    (hint : Nat) (cores : List Nat) (hne : freqs ≠ [])
    (hpol : policy ≠ .AFFINITY_NONE)
    (h : GetCPUCoresToUseRel freqs policy hint cores) :
    ((policy = .AFFINITY_BIG_ONLY ∨ policy = .AFFINITY_HIGH_PERFORMANCE) →
      cores.Pairwise (fun a b => freqAt freqs b ≤ freqAt freqs a)) ∧
    ((policy = .AFFINITY_LITTLE_ONLY ∨ policy = .AFFINITY_POWER_SAVE) →
      cores.Pairwise (fun a b => freqAt freqs a ≤ freqAt freqs b)) ∧
    (policy = .AFFINITY_BIG_ONLY →
      (∀ c ∈ cores, ∀ f ∈ freqs, f ≤ freqAt freqs c) ∧
      cores.length = freqs.countP (fun f => decide (∀ g ∈ freqs, g ≤ f))) ∧
    (policy = .AFFINITY_LITTLE_ONLY →
      (∀ c ∈ cores, ∀ f ∈ freqs, freqAt freqs c ≤ f) ∧
      cores.length = freqs.countP (fun f => decide (∀ g ∈ freqs, f ≤ g))) := by
  unfold GetCPUCoresToUseRel at h
  rw [if_neg (by simp [List.isEmpty_iff, hne]), if_neg hpol] at h
  obtain ⟨sorted, hsort, rfl⟩ := h
  have hperm : sorted.Perm (indexedFreqs freqs) := sortedByPolicy_perm hpol hsort
  have hfa : ∀ p ∈ sorted, freqAt freqs p.core_id = p.freq := fun p hp =>
    freqAt_of_mem_indexed freqs (hperm.mem_iff.mp hp)
  refine ⟨?_, ?_, ?_, ?_⟩
  · intro hbp
    have hpw : sorted.Pairwise (fun a b => b.freq ≤ a.freq) := by
      rcases hbp with h' | h' <;> subst h' <;> exact hsort.2
    rw [List.pairwise_map]
    refine List.Pairwise.imp_of_mem ?_ (hpw.sublist (List.take_sublist _ _))
    intro a b ha hb hr
    rw [hfa a (List.mem_of_mem_take ha), hfa b (List.mem_of_mem_take hb)]
    exact hr
  · intro hlp
    have hpw : sorted.Pairwise (fun a b => a.freq ≤ b.freq) := by
      rcases hlp with h' | h' <;> subst h' <;> exact hsort.2
    rw [List.pairwise_map]
    refine List.Pairwise.imp_of_mem ?_ (hpw.sublist (List.take_sublist _ _))
    intro a b ha hb hr
    rw [hfa a (List.mem_of_mem_take ha), hfa b (List.mem_of_mem_take hb)]
    exact hr
  · intro hb'
    subst hb'
    obtain ⟨hperm', hpw⟩ := hsort
    have hsne : sorted ≠ [] := sorted_ne_nil hperm hne
    obtain ⟨h0, t, rfl⟩ : ∃ h0 t, sorted = h0 :: t := by
      cases sorted with
      | nil => exact absurd rfl hsne
      | cons a t => exact ⟨a, t, rfl⟩
    have hbound : ∀ x ∈ h0 :: t, x.freq ≤ h0.freq :=
      pairwise_head_bound (fun a => le_refl a) hpw
    have hmax : ∀ f ∈ freqs, f ≤ h0.freq := by
      intro f hf
      obtain ⟨p, hp, rfl⟩ := exists_indexed_of_mem freqs hf
      exact hbound p (hperm.mem_iff.mpr hp)
    have hh0 : h0.freq ∈ freqs := by
      obtain ⟨hlt, heqf⟩ :=
        mem_indexedFreqs freqs (hperm.mem_iff.mp (List.mem_cons_self h0 t))
      rw [heqf]
      exact getD_mem freqs _ hlt
    have htake : (h0 :: t).take
        (coresCount .AFFINITY_BIG_ONLY
          (adjustedThreadCount hint freqs.length) (h0 :: t)) =
        (h0 :: t).takeWhile (fun x => decide (x.freq = h0.freq)) := by
      unfold coresCount
      rw [if_pos (Or.inl rfl)]
      exact take_length_takeWhile _ _
    constructor
    · intro c hc f hf
      rw [List.mem_map, htake] at hc
      obtain ⟨p, hp, rfl⟩ := hc
      have hfp : p.freq = h0.freq := by
        have := List.mem_takeWhile_imp hp
        simpa using this
      have hps : p ∈ h0 :: t := (List.takeWhile_sublist _).subset hp
      rw [hfa p hps, hfp]
      exact hmax f hf
    · rw [List.length_map, htake]
      have e2 : freqs.countP (fun f => decide (∀ g ∈ freqs, g ≤ f)) =
          (indexedFreqs freqs).countP
            (fun x => decide (∀ g ∈ freqs, g ≤ x.freq)) := by
        have e3 := List.countP_map (fun f => decide (∀ g ∈ freqs, g ≤ f))
          CPUFreq.freq (indexedFreqs freqs)
        rw [indexedFreqs_map_freq] at e3
        exact e3
      have hcongr : (h0 :: t).countP
          (fun x => decide (∀ g ∈ freqs, g ≤ x.freq)) =
          (h0 :: t).countP (fun x => decide (x.freq = h0.freq)) := by
        apply List.countP_congr
        intro x hx
        simp only [decide_eq_true_eq]
        constructor
        · intro hub
          exact le_antisymm (hbound x hx) (hub h0.freq hh0)
        · intro hxf g hg
          rw [hxf]
          exact hmax g hg
      rw [e2, ← hperm.countP_eq, hcongr,
        countP_sorted_eq_takeWhile (fun hab hba => le_antisymm hab hba)
          h0 t hpw hbound]
  · intro hl'
    subst hl'
    obtain ⟨hperm', hpw⟩ := hsort
    have hsne : sorted ≠ [] := sorted_ne_nil hperm hne
    obtain ⟨h0, t, rfl⟩ : ∃ h0 t, sorted = h0 :: t := by
      cases sorted with
      | nil => exact absurd rfl hsne
      | cons a t => exact ⟨a, t, rfl⟩
    have hpw' : (h0 :: t).Pairwise
        (fun a b => (fun x y : ℚ => y ≤ x) b.freq a.freq) := hpw
    have hbound : ∀ x ∈ h0 :: t, h0.freq ≤ x.freq := by
      intro x hx
      exact pairwise_head_bound (r := fun x y : ℚ => y ≤ x)
        (fun a => le_refl a) hpw' x hx
    have hmin : ∀ f ∈ freqs, h0.freq ≤ f := by
      intro f hf
      obtain ⟨p, hp, rfl⟩ := exists_indexed_of_mem freqs hf
      exact hbound p (hperm.mem_iff.mpr hp)
    have hh0 : h0.freq ∈ freqs := by
      obtain ⟨hlt, heqf⟩ :=
        mem_indexedFreqs freqs (hperm.mem_iff.mp (List.mem_cons_self h0 t))
      rw [heqf]
      exact getD_mem freqs _ hlt
    have htake : (h0 :: t).take
        (coresCount .AFFINITY_LITTLE_ONLY
          (adjustedThreadCount hint freqs.length) (h0 :: t)) =
        (h0 :: t).takeWhile (fun x => decide (x.freq = h0.freq)) := by
      unfold coresCount
      rw [if_pos (Or.inr rfl)]
      exact take_length_takeWhile _ _
    constructor
    · intro c hc f hf
      rw [List.mem_map, htake] at hc
      obtain ⟨p, hp, rfl⟩ := hc
      have hfp : p.freq = h0.freq := by
        have := List.mem_takeWhile_imp hp
        simpa using this
      have hps : p ∈ h0 :: t := (List.takeWhile_sublist _).subset hp
      rw [hfa p hps, hfp]
      exact hmin f hf
    · rw [List.length_map, htake]
      have e2 : freqs.countP (fun f => decide (∀ g ∈ freqs, f ≤ g)) =
          (indexedFreqs freqs).countP
            (fun x => decide (∀ g ∈ freqs, x.freq ≤ g)) := by
        have e3 := List.countP_map (fun f => decide (∀ g ∈ freqs, f ≤ g))
          CPUFreq.freq (indexedFreqs freqs)
        rw [indexedFreqs_map_freq] at e3
        exact e3
      have hcongr : (h0 :: t).countP
          (fun x => decide (∀ g ∈ freqs, x.freq ≤ g)) =
          (h0 :: t).countP (fun x => decide (x.freq = h0.freq)) := by
        apply List.countP_congr
        intro x hx
        simp only [decide_eq_true_eq]
        constructor
        · intro hlb
          exact le_antisymm (hlb h0.freq hh0) (hbound x hx)
        · intro hxf g hg
          rw [hxf]
          exact hmin g hg
      rw [e2, ← hperm.countP_eq, hcongr,
        countP_sorted_eq_takeWhile
          (r := fun x y : ℚ => y ≤ x)
          (fun hab hba => le_antisymm hba hab) h0 t hpw' hbound]

/-- Witness for C7 (amended) at freqs `[2, 1]`, BIG_ONLY, hint 2: the only
possible outcome is `[0]`, the single cpu at the maximum frequency. -/
theorem cores_ordered_by_policy_witness :
    (((CPUAffinityPolicy.AFFINITY_BIG_ONLY = .AFFINITY_BIG_ONLY ∨
        CPUAffinityPolicy.AFFINITY_BIG_ONLY = .AFFINITY_HIGH_PERFORMANCE) →
      List.Pairwise (fun a b => freqAt [2, 1] b ≤ freqAt [2, 1] a) [0]) ∧
    ((CPUAffinityPolicy.AFFINITY_BIG_ONLY = .AFFINITY_LITTLE_ONLY ∨
        CPUAffinityPolicy.AFFINITY_BIG_ONLY = .AFFINITY_POWER_SAVE) →
      List.Pairwise (fun a b => freqAt [2, 1] a ≤ freqAt [2, 1] b) [0]) ∧
    (CPUAffinityPolicy.AFFINITY_BIG_ONLY = .AFFINITY_BIG_ONLY →
      (∀ c ∈ [0], ∀ f ∈ [(2 : ℚ), 1], f ≤ freqAt [2, 1] c) ∧
      List.length [0] =
        List.countP (fun f => decide (∀ g ∈ [(2 : ℚ), 1], g ≤ f)) [2, 1]) ∧
    (CPUAffinityPolicy.AFFINITY_BIG_ONLY = .AFFINITY_LITTLE_ONLY →
      (∀ c ∈ [0], ∀ f ∈ [(2 : ℚ), 1], freqAt [2, 1] c ≤ f) ∧
      List.length [0] =
        List.countP (fun f => decide (∀ g ∈ [(2 : ℚ), 1], f ≤ g)) [2, 1])) :=
  cores_ordered_by_policy [2, 1] .AFFINITY_BIG_ONLY 2 [0] (by decide)
    (by decide)
    (by
      unfold GetCPUCoresToUseRel
      rw [if_neg (by decide), if_neg (by decide)]
      exact ⟨[⟨0, 2⟩, ⟨1, 1⟩], ⟨by decide, by decide⟩, by decide⟩)

/-- C3 counterexample: with frequencies `[1, 2, 2]`, BIG_ONLY and hint 3,
the chosen cores `[1, 2]` all share frequency 2, yet the constructor
doubles the tile count (`default_tile_count = 4 ≠ thread_count = 2`)
because line 137 compares `cpu_max_freqs[0]` — cpu 0's frequency — with
the last chosen core's frequency, not the chosen cores among themselves. -/
theorem default_tile_count_counterexample :
    PoolCtorRel [1, 2, 2] .AFFINITY_BIG_ONLY 3
      ⟨2, [1, 2], 4⟩ ∧
    (∀ c ∈ [1, 2], freqAt [1, 2, 2] c = 2) ∧ (4 : Nat) ≠ 2 := by
  refine ⟨⟨[1, 2], ?_, by decide⟩, by decide, by decide⟩
  unfold GetCPUCoresToUseRel
  rw [if_neg (by decide), if_neg (by decide)]
  exact ⟨[⟨1, 2⟩, ⟨2, 2⟩, ⟨0, 1⟩], ⟨by decide, by decide⟩, by decide⟩

/-- C3 (amended): for every construction outcome, the default tile count is
at least 1 and equals either `thread_count` or `thread_count * 2`; it is
doubled exactly when at least two cores were chosen and cpu 0's frequency
differs from the last chosen core's frequency (the code's actual test,
which can double even when all chosen cores share one frequency); when the
entire frequency table is homogeneous it equals `thread_count`. -/
theorem default_tile_count_rule (freqs : List ℚ)
    (policy : CPUAffinityPolicy) (hint : Nat) (cfg : PoolConfig)
    (h : PoolCtorRel freqs policy hint cfg) :
    1 ≤ cfg.default_tile_count ∧
    (cfg.default_tile_count = cfg.thread_count ∨
      cfg.default_tile_count = cfg.thread_count * kTileCountPerThread) ∧
    (cfg.default_tile_count = cfg.thread_count * kTileCountPerThread ↔
      2 ≤ cfg.cores_to_use.length ∧
        freqAt freqs 0 ≠ freqAt freqs (cfg.cores_to_use.getLast?.getD 0)) ∧
    ((∀ f ∈ freqs, f = freqAt freqs 0) →
      cfg.default_tile_count = cfg.thread_count) := by
  obtain ⟨cores, hcores, rfl⟩ := h
  have hvalid := cores_valid freqs policy (max 1 (min hint freqs.length))
    cores hcores
  unfold poolConfigOf
  dsimp only
  have htc0pos : 1 ≤ max 1 (min hint freqs.length) := le_max_left 1 _
  have htcpos : 1 ≤ if ¬ cores.isEmpty = true ∧
      cores.length < max 1 (min hint freqs.length) then cores.length
      else max 1 (min hint freqs.length) := by
    split
    · rename_i hcond
      have h1 : cores ≠ [] := by
        intro hc
        subst hc
        simp at hcond
      have h2 : 0 < cores.length := List.length_pos.mpr h1
      omega
    · exact htc0pos
  by_cases hcond : 2 ≤ cores.length ∧
      freqAt freqs 0 ≠ freqAt freqs (cores.getLast?.getD 0)
  · rw [if_pos hcond]
    refine ⟨by unfold kTileCountPerThread; omega, Or.inr rfl,
      ⟨fun _ => hcond, fun _ => rfl⟩, ?_⟩
    intro hhomo
    exfalso
    obtain ⟨h2len, hneq⟩ := hcond
    have hlast_mem : cores.getLast?.getD 0 ∈ cores := by
      have hne : cores ≠ [] := by
        intro hc
        subst hc
        simp at h2len
      obtain ⟨a, ha⟩ := Option.isSome_iff_exists.mp
        (List.getLast?_isSome.mpr hne)
      rw [ha]
      exact List.mem_of_mem_getLast? ha
    have hlt := hvalid _ hlast_mem
    have heq : freqAt freqs (cores.getLast?.getD 0) = freqAt freqs 0 := by
      unfold freqAt
      exact hhomo _ (getD_mem freqs _ hlt)
    exact hneq heq.symm
  · rw [if_neg hcond]
    refine ⟨htcpos, Or.inl rfl, ?_, fun _ => rfl⟩
    constructor
    · intro heq
      exfalso
      unfold kTileCountPerThread at heq
      omega
    · intro hc
      exact absurd hc hcond

/-- Witness for C3 (amended) at freqs `[1]`, POWER_SAVE, hint 1: the
configuration is `thread_count = 1`, cores `[0]`, `default_tile_count = 1`. -/
theorem default_tile_count_rule_witness :
    1 ≤ (⟨1, [0], 1⟩ : PoolConfig).default_tile_count ∧
    ((⟨1, [0], 1⟩ : PoolConfig).default_tile_count =
        (⟨1, [0], 1⟩ : PoolConfig).thread_count ∨
      (⟨1, [0], 1⟩ : PoolConfig).default_tile_count =
        (⟨1, [0], 1⟩ : PoolConfig).thread_count * kTileCountPerThread) ∧
    ((⟨1, [0], 1⟩ : PoolConfig).default_tile_count =
        (⟨1, [0], 1⟩ : PoolConfig).thread_count * kTileCountPerThread ↔
      2 ≤ (⟨1, [0], 1⟩ : PoolConfig).cores_to_use.length ∧
        freqAt [1] 0 ≠ freqAt [1]
          ((⟨1, [0], 1⟩ : PoolConfig).cores_to_use.getLast?.getD 0)) ∧
    ((∀ f ∈ [(1 : ℚ)], f = freqAt [1] 0) →
      (⟨1, [0], 1⟩ : PoolConfig).default_tile_count =
        (⟨1, [0], 1⟩ : PoolConfig).thread_count) :=
  default_tile_count_rule [1] .AFFINITY_POWER_SAVE 1 ⟨1, [0], 1⟩
    (by
      refine ⟨[0], ?_, by decide⟩
      unfold GetCPUCoresToUseRel
      rw [if_neg (by decide), if_neg (by decide)]
      exact ⟨[⟨0, 1⟩], ⟨by decide, by decide⟩, by decide⟩)

end MaceThreadPool
